import Mathlib

/-
Verification of the storage-engine core of the bustub repository:

* `LRUReplacer`        — src/buffer/lru_replacer.cpp
* `BufferPoolManager`  — src/buffer/buffer_pool_manager.cpp
* `BPlusTreeInternalPage` — src/storage/page/b_plus_tree_internal_page.cpp
* `BPlusTreeLeafPage`  — src/storage/page/b_plus_tree_leaf_page.cpp

The C++ classes are embedded shallowly: mutating member functions become pure
functions from the receiver state to the updated state (plus the C++ return
value), out-parameters become components of the result, and functions that
throw or run into undefined behaviour return `Option` (`none` = the call does
not return normally).  Machine `int` values are modelled as `Int`, container
sizes as `Nat`.  Keys and values of the templated B+ tree pages are
instantiated at `Int` with the three-way integer comparator `intCmp`, the
integer instance of the repository's `GenericComparator` (returns a negative,
zero, or positive int).
-/

/-- Three-way integer comparison, the integer instance of `GenericComparator`:
negative when `a < b`, zero when equal, positive when `a > b`. -/
def intCmp (a b : Int) : Int :=
  if a < b then -1 else if b < a then 1 else 0

/-! ### LRU replacer (src/buffer/lru_replacer.cpp)

The replacer state is the member `unpinned_frames : std::vector<frame_id_t>`;
`frame_id_t` is a C `int`, modelled as `Int`. -/

structure LRUReplacer where
  unpinned_frames : List Int
deriving DecidableEq

/-- `LRUReplacer::Victim`: if the vector is empty return `false`; otherwise
write the front into the out-parameter, erase it, and return `true`.
The `bool` result plus out-parameter are modelled as an `Option`. -/
def LRUReplacer.Victim (r : LRUReplacer) : Option (Int × LRUReplacer) :=
  match r.unpinned_frames with
  | [] => none
  | f :: rest => some (f, ⟨rest⟩)

/-- `LRUReplacer::Pin`: erase the first occurrence of `frame_id` from the
vector, if present. -/
def LRUReplacer.Pin (r : LRUReplacer) (frame_id : Int) : LRUReplacer :=
  ⟨r.unpinned_frames.erase frame_id⟩

/-- `LRUReplacer::Unpin`: negative frame ids are ignored; a frame already in
the vector is left where it is; otherwise the frame is pushed to the back. -/
def LRUReplacer.Unpin (r : LRUReplacer) (frame_id : Int) : LRUReplacer :=
  if frame_id < 0 then r
  else if frame_id ∈ r.unpinned_frames then r
  else ⟨r.unpinned_frames ++ [frame_id]⟩

/-- `LRUReplacer::Size`. -/
def LRUReplacer.Size (r : LRUReplacer) : Nat :=
  r.unpinned_frames.length

/-! ### Buffer pool manager (src/buffer/buffer_pool_manager.cpp)

`Page` models the frame metadata of bustub's `Page` class that the manager
reads and writes (`page_id_`, `pin_count_`, `is_dirty_`).  The byte buffer is
not modelled; disk traffic is recorded instead as a trace of `DiskOp` calls
made to the `DiskManager` collaborator.  The `Page` class itself is not under
src/; its initial field values are modelled from the spec: a free frame holds
the invalid sentinel page id (−1), pin count 0, and a clean dirty bit. -/

structure Page where
  page_id_ : Int
  pin_count_ : Int
  is_dirty_ : Bool
deriving DecidableEq

/-- The metadata of a freshly constructed frame (`new Page[pool_size]`).
Modelled from the spec: `page_id` is the invalid sentinel when the frame is
free, `pin_count` is 0, `is_dirty` is clear. -/
def Page.free : Page :=
  { page_id_ := -1, pin_count_ := 0, is_dirty_ := false }

/-- Calls the buffer pool manager makes on its `DiskManager` collaborator. -/
inductive DiskOp where
  | readPage (pid : Int)
  | writePage (pid : Int)
  | deallocatePage (pid : Int)
deriving DecidableEq

structure BufferPoolManager where
  pages_ : List Page
  page_table_ : List (Int × Int)
  free_list_ : List Int
  replacer_ : LRUReplacer
deriving DecidableEq

/-- `page_table_.find(page_id)`: the `std::unordered_map` lookup, `none` when
the iterator equals `end()`. -/
def ptFind (t : List (Int × Int)) (pid : Int) : Option Int :=
  (t.find? (fun e => e.1 == pid)).map (fun e => e.2)

/-- Erase the (unique) entry for key `pid` from the page table. -/
def ptErase (t : List (Int × Int)) (pid : Int) : List (Int × Int) :=
  t.eraseP (fun e => e.1 == pid)

/-- `pages_[f]`: array indexing into the frame array. -/
def pageAt (ps : List Page) (f : Int) : Page :=
  ps.getD f.toNat Page.free

/-- Write frame `f` of the frame array. -/
def setPageAt (ps : List Page) (f : Int) (p : Page) : List Page :=
  ps.set f.toNat p

/-- `BufferPoolManager::BufferPoolManager(pool_size, ...)`: all frames free,
free list `[0, pool_size)` in order, empty page table and replacer. -/
def BufferPoolManager.new (pool_size : Nat) : BufferPoolManager :=
  { pages_ := List.replicate pool_size Page.free,
    page_table_ := [],
    free_list_ := (List.range pool_size).map (fun i => (i : Int)),
    replacer_ := ⟨[]⟩ }

/-- `BufferPoolManager::FetchPageImpl`.  The returned `Page *` is modelled as
the frame id (`none` for `nullptr`); the outer `Option` is `none` exactly when
the victim path erases a page-table entry that is absent (`erase` on the
`end()` iterator, undefined behaviour).  The `List DiskOp` component records
the disk-manager calls in order. -/
def BufferPoolManager.FetchPageImpl (bpm : BufferPoolManager) (page_id : Int) :
    Option (Option Int × BufferPoolManager × List DiskOp) :=
  match ptFind bpm.page_table_ page_id with
  | some f_id =>
      -- 1.1 P exists: pin it and return it immediately.
      let p := pageAt bpm.pages_ f_id
      some (some f_id,
        { bpm with
            pages_ := setPageAt bpm.pages_ f_id { p with pin_count_ := p.pin_count_ + 1 },
            replacer_ := bpm.replacer_.Pin f_id },
        [])
  | none =>
      match bpm.free_list_ with
      | f :: rest =>
          -- Take the frame from the front of the free list.
          some (some f,
            { bpm with
                free_list_ := rest,
                page_table_ := bpm.page_table_ ++ [(page_id, f)],
                pages_ := setPageAt bpm.pages_ f
                  { page_id_ := page_id, pin_count_ := 1, is_dirty_ := false },
                replacer_ := bpm.replacer_.Pin f },
            [DiskOp.readPage page_id])
      | [] =>
          match bpm.replacer_.Victim with
          | none => some (none, bpm, [])
          | some (f, rep) =>
              let p := pageAt bpm.pages_ f
              let wr := if p.is_dirty_ then [DiskOp.writePage p.page_id_] else []
              match ptFind bpm.page_table_ p.page_id_ with
              | none => none  -- page_table_.erase(page_table_.find(...)) on end()
              | some _ =>
                  some (some f,
                    { bpm with
                        page_table_ := ptErase bpm.page_table_ p.page_id_ ++ [(page_id, f)],
                        pages_ := setPageAt bpm.pages_ f
                          { page_id_ := page_id, pin_count_ := 1, is_dirty_ := false },
                        replacer_ := (LRUReplacer.mk rep.unpinned_frames).Pin f },
                    wr ++ [DiskOp.readPage page_id])

/-- `BufferPoolManager::UnpinPageImpl`.  `none` models the undefined behaviour
of dereferencing `page_table_.find(page_id)` when `page_id` is not resident.
Note that the source neither decrements `pin_count_` nor makes the
`replacer_->Unpin` call conditional on the pin count reaching zero. -/
def BufferPoolManager.UnpinPageImpl (bpm : BufferPoolManager) (page_id : Int)
    (is_dirty : Bool) : Option (Bool × BufferPoolManager) :=
  match ptFind bpm.page_table_ page_id with
  | none => none  -- page_table_.find(page_id)->second on end(): undefined behaviour
  | some f =>
      let p := pageAt bpm.pages_ f
      if p.pin_count_ ≤ 0 then some (false, bpm)
      else
        some (true,
          { bpm with
              replacer_ := bpm.replacer_.Unpin f,
              pages_ := if is_dirty then setPageAt bpm.pages_ f { p with is_dirty_ := true }
                        else bpm.pages_ })

/-- `BufferPoolManager::FlushPageImpl`: the body only locks and unlocks the
latch and returns `false`; no state change, no disk write. -/
def BufferPoolManager.FlushPageImpl (bpm : BufferPoolManager) (_page_id : Int) :
    Bool × BufferPoolManager × List DiskOp :=
  (false, bpm, [])

/-- `BufferPoolManager::DeletePageImpl`: the body is `return false;`. -/
def BufferPoolManager.DeletePageImpl (bpm : BufferPoolManager) (_page_id : Int) :
    Bool × BufferPoolManager × List DiskOp :=
  (false, bpm, [])

/-- The §3/§8 residency invariant: every frame mapped by the page table is in
the replacer exactly when its pin count is zero. -/
def residentInvariant (bpm : BufferPoolManager) : Prop :=
  ∀ e ∈ bpm.page_table_,
    (e.2 ∈ bpm.replacer_.unpinned_frames ↔ (pageAt bpm.pages_ e.2).pin_count_ = 0)

/-- State of a two-frame pool after `FetchPageImpl 7` loaded page 7 into
frame 0 from the free list. -/
def poolFetched7 : BufferPoolManager :=
  { pages_ := [{ page_id_ := 7, pin_count_ := 1, is_dirty_ := false }, Page.free],
    page_table_ := [(7, 0)],
    free_list_ := [1],
    replacer_ := ⟨[]⟩ }

/-- The same pool after a second `FetchPageImpl 7` (a hit): pin count 2. -/
def poolFetched7Twice : BufferPoolManager :=
  { pages_ := [{ page_id_ := 7, pin_count_ := 2, is_dirty_ := false }, Page.free],
    page_table_ := [(7, 0)],
    free_list_ := [1],
    replacer_ := ⟨[]⟩ }

/-- `poolFetched7Twice` after `UnpinPageImpl 7 false`: the pin count is still
2, yet frame 0 has been handed to the replacer. -/
def poolAfterBuggyUnpin : BufferPoolManager :=
  { pages_ := [{ page_id_ := 7, pin_count_ := 2, is_dirty_ := false }, Page.free],
    page_table_ := [(7, 0)],
    free_list_ := [1],
    replacer_ := ⟨[0]⟩ }

/-- State of a one-frame pool after `FetchPageImpl 5` loaded page 5. -/
def poolFetched5 : BufferPoolManager :=
  { pages_ := [{ page_id_ := 5, pin_count_ := 1, is_dirty_ := false }],
    page_table_ := [(5, 0)],
    free_list_ := [],
    replacer_ := ⟨[]⟩ }

/-- `poolFetched5` after `UnpinPageImpl 5 false`. -/
def poolFetched5Unpinned : BufferPoolManager :=
  { pages_ := [{ page_id_ := 5, pin_count_ := 1, is_dirty_ := false }],
    page_table_ := [(5, 0)],
    free_list_ := [],
    replacer_ := ⟨[0]⟩ }

/-! ### B+ tree pages

`b_plus_tree_internal_page.cpp` and `b_plus_tree_leaf_page.cpp` are templated
over `KeyType`, `ValueType`, `KeyComparator`; the embedding instantiates keys
and values at `Int` and takes the three-way comparator as an argument where
the C++ member functions do.  A page's entry array is modelled as the list of
its first `GetSize()` entries, so `GetSize()` is the list length. -/

/-- `array[i].first` (unchecked array access). -/
def keyD (a : List (Int × Int)) (i : Nat) : Int :=
  (a.getD i (0, 0)).1

/-- `array[i].second` (unchecked array access). -/
def valD (a : List (Int × Int)) (i : Nat) : Int :=
  (a.getD i (0, 0)).2

/-- One iteration step of the `while (left < right)` binary-search loop.  The
`fuel` argument is the loop variant `right - left`, which strictly decreases
each iteration; it is consumed only to make the recursion structural and is
never exhausted when starting at `hi - lo`. -/
def lowerBoundGo (a : List (Int × Int)) (key : Int) (cmp : Int → Int → Int) :
    Nat → Nat → Nat → Nat
  | 0, lo, _ => lo
  | fuel + 1, lo, hi =>
    if lo < hi then
      if cmp (keyD a (lo + (hi - lo) / 2)) key < 0 then
        lowerBoundGo a key cmp fuel (lo + (hi - lo) / 2 + 1) hi
      else
        lowerBoundGo a key cmp fuel lo (lo + (hi - lo) / 2)
    else lo

/-- The binary search shared by `BPlusTreeLeafPage::KeyIndex` (the explicit
`while (left < right)` loop) and the `std::lower_bound` call in
`BPlusTreeInternalPage::Lookup`: over indices `[lo, hi)`, find the split point
of the predicate `cmp (array[mid].first) key < 0`. -/
def lowerBound (a : List (Int × Int)) (key : Int) (cmp : Int → Int → Int)
    (lo hi : Nat) : Nat :=
  lowerBoundGo a key cmp (hi - lo) lo hi

/-- Internal page: entry array (first key unused) and `max_size_`. -/
structure BPlusTreeInternalPage where
  array : List (Int × Int)
  max_size_ : Int
deriving DecidableEq

/-- `BPlusTreeInternalPage::KeyAt`: throws `OUT_OF_RANGE` (modelled `none`)
unless `0 ≤ index < GetSize()`. -/
def BPlusTreeInternalPage.KeyAt (n : BPlusTreeInternalPage) (index : Int) :
    Option Int :=
  if index < 0 ∨ (n.array.length : Int) ≤ index then none
  else some (keyD n.array index.toNat)

/-- `BPlusTreeInternalPage::SetKeyAt`: throws `OUT_OF_RANGE` (modelled `none`)
unless `0 ≤ index < GetSize()`; otherwise updates `array[index].first`. -/
def BPlusTreeInternalPage.SetKeyAt (n : BPlusTreeInternalPage) (index : Int)
    (key : Int) : Option BPlusTreeInternalPage :=
  if index < 0 ∨ (n.array.length : Int) ≤ index then none
  else some { n with array := n.array.set index.toNat (key, valD n.array index.toNat) }

/-- `BPlusTreeInternalPage::ValueAt`: throws `OUT_OF_RANGE` (modelled `none`)
unless `0 ≤ index < GetSize()`. -/
def BPlusTreeInternalPage.ValueAt (n : BPlusTreeInternalPage) (index : Int) :
    Option Int :=
  if index < 0 ∨ (n.array.length : Int) ≤ index then none
  else some (valD n.array index.toNat)

/-- `BPlusTreeInternalPage::Remove`: throws `OUT_OF_RANGE` (modelled `none`)
unless `0 ≤ index < GetSize()`; otherwise shifts the tail left over `index`
and decrements the size. -/
def BPlusTreeInternalPage.Remove (n : BPlusTreeInternalPage) (index : Int) :
    Option BPlusTreeInternalPage :=
  if index < 0 ∨ (n.array.length : Int) ≤ index then none
  else some { n with array := n.array.eraseIdx index.toNat }

/-- `BPlusTreeInternalPage::Lookup`: `std::lower_bound` over `[1, GetSize())`
with predicate `comparator(pair.first, key) < 0`; if the iterator is the end,
return `ValueAt(GetSize() - 1)` (a checked access, `none` on an empty page);
on an exact comparator match return that entry's value; otherwise the
previous entry's value (unchecked accesses).  On a page of size 0 the source
hands `std::lower_bound` the invalid iterator range `[array + 1, array + 0)`
(undefined behaviour); the theorems below assume at least one entry. -/
def BPlusTreeInternalPage.Lookup (n : BPlusTreeInternalPage) (key : Int)
    (cmp : Int → Int → Int) : Option Int :=
  let i := lowerBound n.array key cmp 1 n.array.length
  if i = n.array.length then n.ValueAt ((n.array.length : Int) - 1)
  else if cmp (keyD n.array i) key = 0 then some (valD n.array i)
  else some (valD n.array (i - 1))

/-- Leaf page: entry array and `max_size_` (`next_page_id_` plays no role in
the operations verified here and is omitted). -/
structure BPlusTreeLeafPage where
  array : List (Int × Int)
  max_size_ : Int
deriving DecidableEq

/-- `BPlusTreeLeafPage::KeyIndex`: the binary search loop, first index in
`[0, GetSize())` whose key is not less than `key` under the comparator. -/
def BPlusTreeLeafPage.KeyIndex (l : BPlusTreeLeafPage) (key : Int)
    (cmp : Int → Int → Int) : Nat :=
  lowerBound l.array key cmp 0 l.array.length

/-- `BPlusTreeLeafPage::KeyAt`: out-of-range indices do NOT throw; the source
returns a default-constructed `KeyType{}` (the integer key 0) instead. -/
def BPlusTreeLeafPage.KeyAt (l : BPlusTreeLeafPage) (index : Int) : Int :=
  if index < 0 ∨ (l.array.length : Int) ≤ index then 0
  else keyD l.array index.toNat

/-- `BPlusTreeLeafPage::GetItem`: out-of-range indices do NOT throw; the
source falls back to `array[0]` when the page is non-empty and to a static
default-constructed dummy item otherwise. -/
def BPlusTreeLeafPage.GetItem (l : BPlusTreeLeafPage) (index : Int) :
    Int × Int :=
  if index < 0 ∨ (l.array.length : Int) ≤ index then
    if 0 < l.array.length then l.array.getD 0 (0, 0) else (0, 0)
  else l.array.getD index.toNat (0, 0)

/-- `BPlusTreeLeafPage::Insert`: find the insertion point with `KeyIndex`;
return the unchanged size on an exact duplicate or a full page; otherwise
shift right, insert, and return the incremented size.  The mutated page is
returned alongside the `int` result. -/
def BPlusTreeLeafPage.Insert (l : BPlusTreeLeafPage) (key value : Int)
    (cmp : Int → Int → Int) : BPlusTreeLeafPage × Int :=
  let index := l.KeyIndex key cmp
  if index < l.array.length ∧ cmp (keyD l.array index) key = 0 then
    (l, (l.array.length : Int))
  else if l.max_size_ ≤ (l.array.length : Int) then
    (l, (l.array.length : Int))
  else
    ({ l with array := List.insertIdx index (key, value) l.array },
      ((l.array.length : Int) + 1))

/-- `BPlusTreeLeafPage::CopyLastFrom`: append `item`, except that a full page
(`GetSize() >= GetMaxSize()`) is left untouched. -/
def BPlusTreeLeafPage.CopyLastFrom (l : BPlusTreeLeafPage) (item : Int × Int) :
    BPlusTreeLeafPage :=
  if l.max_size_ ≤ (l.array.length : Int) then l
  else { l with array := l.array ++ [item] }

/-- `BPlusTreeLeafPage::CopyFirstFrom`: shift right and prepend `item`,
except that a full page is left untouched. -/
def BPlusTreeLeafPage.CopyFirstFrom (l : BPlusTreeLeafPage) (item : Int × Int) :
    BPlusTreeLeafPage :=
  if l.max_size_ ≤ (l.array.length : Int) then l
  else { l with array := item :: l.array }

/-- `BPlusTreeLeafPage::MoveFirstToEndOf`: no-op on an empty source;
otherwise remove `array[0]` (shift left, size − 1) and `CopyLastFrom` it into
the recipient.  Returns (source, recipient) after the call. -/
def BPlusTreeLeafPage.MoveFirstToEndOf (l recipient : BPlusTreeLeafPage) :
    BPlusTreeLeafPage × BPlusTreeLeafPage :=
  if l.array.length = 0 then (l, recipient)
  else
    ({ l with array := l.array.tail },
      recipient.CopyLastFrom (l.array.getD 0 (0, 0)))

/-- `BPlusTreeLeafPage::MoveLastToFrontOf`: no-op on an empty source;
otherwise remove the last entry (size − 1) and `CopyFirstFrom` it into the
recipient.  Returns (source, recipient) after the call. -/
def BPlusTreeLeafPage.MoveLastToFrontOf (l recipient : BPlusTreeLeafPage) :
    BPlusTreeLeafPage × BPlusTreeLeafPage :=
  if l.array.length = 0 then (l, recipient)
  else
    ({ l with array := l.array.dropLast },
      recipient.CopyFirstFrom (l.array.getD (l.array.length - 1) (0, 0)))

theorem intCmp_neg_iff (a b : Int) : intCmp a b < 0 ↔ a < b := by
  unfold intCmp; split_ifs <;> simp_all <;> omega

theorem intCmp_nonneg_iff (a b : Int) : 0 ≤ intCmp a b ↔ b ≤ a := by
  unfold intCmp; split_ifs <;> simp_all <;> omega

theorem intCmp_eq_zero_iff (a b : Int) : intCmp a b = 0 ↔ a = b := by
  unfold intCmp; split_ifs <;> simp_all <;> omega

theorem intCmp_pos_iff (a b : Int) : 0 < intCmp a b ↔ b < a := by
  unfold intCmp; split_ifs <;> simp_all <;> omega

/-- Claim C5: `Unpin` on a frame already present leaves the replacer state
exactly unchanged (idempotent, preserving the frame's LRU position); and after
unpinning distinct nonnegative frames A, B, C in that order into an empty
replacer, with an extra re-unpin of A between B and C, three successive
`Victim` calls return A, then B, then C, and a fourth returns none. -/
theorem lru_unpin_idempotent_preserves_order (r : LRUReplacer) (f A B C : Int)
    (hf : f ∈ r.unpinned_frames) (hA : 0 ≤ A) (hB : 0 ≤ B) (hC : 0 ≤ C)
    (hAB : A ≠ B) (hAC : A ≠ C) (hBC : B ≠ C) :
    r.Unpin f = r ∧
    ((((LRUReplacer.mk []).Unpin A).Unpin B).Unpin A).Unpin C =
      ⟨[A, B, C]⟩ ∧
    LRUReplacer.Victim ⟨[A, B, C]⟩ = some (A, ⟨[B, C]⟩) ∧
    LRUReplacer.Victim ⟨[B, C]⟩ = some (B, ⟨[C]⟩) ∧
    LRUReplacer.Victim ⟨[C]⟩ = some (C, ⟨[]⟩) ∧
    LRUReplacer.Victim ⟨[]⟩ = none := by
  have nA : ¬ A < 0 := not_lt.mpr hA
  have nB : ¬ B < 0 := not_lt.mpr hB
  have nC : ¬ C < 0 := not_lt.mpr hC
  refine ⟨?_, ?_, rfl, rfl, rfl, rfl⟩
  · simp [LRUReplacer.Unpin, hf]
  · simp [LRUReplacer.Unpin, nA, nB, nC, hAB, hAC, hBC,
      Ne.symm hAB, Ne.symm hAC, Ne.symm hBC]

/-- Claim C1: at the failing input (page 7 resident in frame 0 with pin count
2), `UnpinPageImpl 7 false` returns `true` but leaves `pin_count_` at 2
instead of decrementing it to 1, and calls `replacer_->Unpin 0` even though
the pin count has not reached 0 — contradicting the claimed behaviour. -/
theorem unpin_pin_count_not_decremented :
    BufferPoolManager.FetchPageImpl (BufferPoolManager.new 2) 7 =
      some (some 0, poolFetched7, [DiskOp.readPage 7]) ∧
    BufferPoolManager.FetchPageImpl poolFetched7 7 =
      some (some 0, poolFetched7Twice, []) ∧
    BufferPoolManager.UnpinPageImpl poolFetched7Twice 7 false =
      some (true, poolAfterBuggyUnpin) ∧
    (pageAt poolAfterBuggyUnpin.pages_ 0).pin_count_ = 2 ∧
    (0 : Int) ∈ poolAfterBuggyUnpin.replacer_.unpinned_frames := by
  decide

/-- Claim C2: the residency invariant `f ∈ replacer ⇔ pin_count == 0` holds
after fetching page 5 into a fresh one-frame pool, but the completed
`UnpinPageImpl 5 false` breaks it: frame 0 enters the replacer while its pin
count stays 1.  The biconditional is not preserved by every public
operation. -/
theorem unpin_breaks_resident_invariant :
    BufferPoolManager.FetchPageImpl (BufferPoolManager.new 1) 5 =
      some (some 0, poolFetched5, [DiskOp.readPage 5]) ∧
    residentInvariant poolFetched5 ∧
    BufferPoolManager.UnpinPageImpl poolFetched5 5 false =
      some (true, poolFetched5Unpinned) ∧
    ¬ residentInvariant poolFetched5Unpinned := by
  refine ⟨by decide, by unfold residentInvariant; decide, by decide, ?_⟩
  intro h
  have := h (5, 0) (by decide)
  simp [poolFetched5Unpinned, pageAt, Page.free] at this

/-- Claim C3: with page 7 resident (frame 0 of `poolFetched7`),
`FlushPageImpl 7` returns `false`, performs no disk write, and leaves the
state unchanged — instead of writing the buffer to disk, clearing
`is_dirty`, and returning `true` as the claim states. -/
theorem flush_resident_returns_false_writes_nothing :
    ptFind poolFetched7.page_table_ 7 = some 0 ∧
    BufferPoolManager.FlushPageImpl poolFetched7 7 = (false, poolFetched7, []) := by
  decide

/-- Claim C4: with page 99 not resident, `DeletePageImpl 99` returns `false`
and never calls `disk_manager_->DeallocatePage` — instead of returning `true`
and deallocating as the claim states. -/
theorem delete_nonresident_returns_false :
    ptFind (BufferPoolManager.new 1).page_table_ 99 = none ∧
    BufferPoolManager.DeletePageImpl (BufferPoolManager.new 1) 99 =
      (false, BufferPoolManager.new 1, []) := by
  decide

/-- Claim C8: for page 42, absent from the page table of a fresh pool,
`FlushPageImpl` does return `false` with the state unchanged, but
`UnpinPageImpl` dereferences the `end()` iterator of `page_table_.find`
(undefined behaviour, modelled as `none`) instead of returning `false`. -/
theorem unpin_nonresident_undefined_behaviour :
    ptFind (BufferPoolManager.new 1).page_table_ 42 = none ∧
    BufferPoolManager.UnpinPageImpl (BufferPoolManager.new 1) 42 false = none ∧
    BufferPoolManager.FlushPageImpl (BufferPoolManager.new 1) 42 =
      (false, BufferPoolManager.new 1, []) := by
  decide

/-- Witness for C5 at `r = ⟨[7, 9]⟩`, `f = 9`, `A = 0`, `B = 1`, `C = 2`. -/
theorem lru_unpin_idempotent_preserves_order_witness :
    LRUReplacer.Unpin ⟨[7, 9]⟩ 9 = ⟨[7, 9]⟩ ∧
    ((((LRUReplacer.mk []).Unpin 0).Unpin 1).Unpin 0).Unpin 2 =
      ⟨[0, 1, 2]⟩ ∧
    LRUReplacer.Victim ⟨[0, 1, 2]⟩ = some (0, ⟨[1, 2]⟩) ∧
    LRUReplacer.Victim ⟨[1, 2]⟩ = some (1, ⟨[2]⟩) ∧
    LRUReplacer.Victim ⟨[2]⟩ = some (2, ⟨[]⟩) ∧
    LRUReplacer.Victim ⟨[]⟩ = none :=
  lru_unpin_idempotent_preserves_order ⟨[7, 9]⟩ 9 0 1 2 (by decide)
    (by decide) (by decide) (by decide) (by decide) (by decide) (by decide)

/-- Soundness of the shared binary search: on a range whose failure set is
downward closed (which strict key ordering guarantees), `lowerBound` stays in
`[lo, hi]`, everything left of the result fails the predicate
`0 ≤ cmp (key_at k) key`, and the result itself satisfies it unless the
result is `hi`. -/
theorem lowerBoundGo_spec (a : List (Int × Int)) (key : Int)
    (cmp : Int → Int → Int) :
    ∀ (fuel lo hi : Nat), hi - lo ≤ fuel → lo ≤ hi →
    (∀ i j, lo ≤ i → i ≤ j → j < hi →
       cmp (keyD a j) key < 0 → cmp (keyD a i) key < 0) →
    lo ≤ lowerBoundGo a key cmp fuel lo hi ∧
    lowerBoundGo a key cmp fuel lo hi ≤ hi ∧
    (∀ k, lo ≤ k → k < lowerBoundGo a key cmp fuel lo hi →
      cmp (keyD a k) key < 0) ∧
    (lowerBoundGo a key cmp fuel lo hi < hi →
      0 ≤ cmp (keyD a (lowerBoundGo a key cmp fuel lo hi)) key) := by
  intro fuel
  induction fuel with
  | zero =>
    intro lo hi hn hle hmono
    have he : lowerBoundGo a key cmp 0 lo hi = lo := rfl
    rw [he]
    exact ⟨le_refl lo, hle, fun k hk1 hk2 => by omega, fun hcon => by omega⟩
  | succ fuel IH =>
    intro lo hi hn hle hmono
    by_cases h : lo < hi
    · have hmlt : lo + (hi - lo) / 2 < hi := by omega
      have hmge : lo ≤ lo + (hi - lo) / 2 := by omega
      rw [lowerBoundGo, if_pos h]
      by_cases hc : cmp (keyD a (lo + (hi - lo) / 2)) key < 0
      · rw [if_pos hc]
        obtain ⟨h1, h2, h3, h4⟩ :=
          IH (lo + (hi - lo) / 2 + 1) hi (by omega) (by omega)
            (fun i j hi1 hij hjh hcj => hmono i j (by omega) hij hjh hcj)
        refine ⟨by omega, h2, ?_, h4⟩
        intro k hk1 hk2
        by_cases hkm : k ≤ lo + (hi - lo) / 2
        · exact hmono k (lo + (hi - lo) / 2) hk1 hkm hmlt hc
        · exact h3 k (by omega) hk2
      · rw [if_neg hc]
        obtain ⟨h1, h2, h3, h4⟩ :=
          IH lo (lo + (hi - lo) / 2) (by omega) (by omega)
            (fun i j hi1 hij hjm hcj => hmono i j hi1 hij (by omega) hcj)
        refine ⟨h1, by omega, h3, fun _ => ?_⟩
        rcases lt_or_eq_of_le h2 with hh | hh
        · exact h4 hh
        · rw [hh]
          exact not_lt.mp hc
    · rw [lowerBoundGo, if_neg h]
      exact ⟨le_refl lo, by omega, fun k hk1 hk2 => absurd hk2 (by omega),
        fun hcon => absurd hcon (by omega)⟩

/-- Soundness of `lowerBound` on a range whose failure set is downward closed
(which strict key ordering guarantees): the result stays in `[lo, hi]`, every
index left of it fails the predicate `0 ≤ cmp (key_at k) key`, and the result
itself satisfies the predicate unless it equals `hi`. -/
theorem lowerBound_spec (a : List (Int × Int)) (key : Int)
    (cmp : Int → Int → Int) (lo hi : Nat) (hle : lo ≤ hi)
    (hmono : ∀ i j, lo ≤ i → i ≤ j → j < hi →
       cmp (keyD a j) key < 0 → cmp (keyD a i) key < 0) :
    lo ≤ lowerBound a key cmp lo hi ∧ lowerBound a key cmp lo hi ≤ hi ∧
    (∀ k, lo ≤ k → k < lowerBound a key cmp lo hi →
      cmp (keyD a k) key < 0) ∧
    (lowerBound a key cmp lo hi < hi →
      0 ≤ cmp (keyD a (lowerBound a key cmp lo hi)) key) :=
  lowerBoundGo_spec a key cmp (hi - lo) lo hi (le_refl _) hle hmono

/-- Checked `ValueAt` at an in-range natural index returns the raw entry
value. -/
theorem ValueAt_of_lt (n : BPlusTreeInternalPage) (j : Nat)
    (hj : j < n.array.length) : n.ValueAt (j : Int) = some (valD n.array j) := by
  unfold BPlusTreeInternalPage.ValueAt
  rw [if_neg (by omega), show ((j : Int)).toNat = j by omega]

/-- Claim C6: for an internal node whose keys at entries `[1, size)` are
strictly ascending under the comparator, `Lookup` binary-searches `[1, size)`
and returns `ValueAt i` when entry `i` (the first index whose key compares
greater-or-equal to the search key) compares equal, `ValueAt (i − 1)` when
entry `i` compares strictly greater, and the last child
`ValueAt (size − 1)` when no index in `[1, size)` has a key comparing
greater-or-equal. -/
theorem internal_lookup_binary_search (n : BPlusTreeInternalPage) (key : Int)
    (hsz : 1 ≤ n.array.length)
    (hsort : ∀ j, j < n.array.length → ∀ i, i < j → 1 ≤ i →
       intCmp (keyD n.array i) (keyD n.array j) < 0) :
    (∀ i, 1 ≤ i → i < n.array.length →
       (∀ k, k < i → 1 ≤ k → intCmp (keyD n.array k) key < 0) →
       0 ≤ intCmp (keyD n.array i) key →
       ((intCmp (keyD n.array i) key = 0 →
          n.Lookup key intCmp = n.ValueAt (i : Int)) ∧
        (0 < intCmp (keyD n.array i) key →
          n.Lookup key intCmp = n.ValueAt ((i : Int) - 1)))) ∧
    ((∀ i, i < n.array.length → 1 ≤ i → intCmp (keyD n.array i) key < 0) →
       n.Lookup key intCmp = n.ValueAt ((n.array.length : Int) - 1)) := by
  have hsort' : ∀ j, j < n.array.length → ∀ i, i < j → 1 ≤ i →
      keyD n.array i < keyD n.array j := by
    intro j hj i hij hi1
    have := hsort j hj i hij hi1
    rwa [intCmp_neg_iff] at this
  have hmono : ∀ i j, 1 ≤ i → i ≤ j → j < n.array.length →
      intCmp (keyD n.array j) key < 0 → intCmp (keyD n.array i) key < 0 := by
    intro i j hi1 hij hj hcj
    rcases Nat.eq_or_lt_of_le hij with rfl | hlt
    · exact hcj
    · rw [intCmp_neg_iff] at hcj ⊢
      have := hsort' j hj i hlt hi1
      omega
  obtain ⟨hb1, hb2, hb3, hb4⟩ :=
    lowerBound_spec n.array key intCmp 1 n.array.length hsz hmono
  have hlookup : n.Lookup key intCmp =
      (if lowerBound n.array key intCmp 1 n.array.length = n.array.length then
        n.ValueAt ((n.array.length : Int) - 1)
      else if intCmp
          (keyD n.array (lowerBound n.array key intCmp 1 n.array.length)) key = 0 then
        some (valD n.array (lowerBound n.array key intCmp 1 n.array.length))
      else
        some (valD n.array (lowerBound n.array key intCmp 1 n.array.length - 1))) :=
    rfl
  constructor
  · intro i hi1 hilen hbefore hge
    have hri : lowerBound n.array key intCmp 1 n.array.length = i := by
      rcases Nat.lt_trichotomy (lowerBound n.array key intCmp 1 n.array.length) i
        with hlt | heq | hgt
      · have ha := hb4 (by omega)
        have hb := hbefore _ hlt hb1
        omega
      · exact heq
      · have := hb3 i hi1 hgt
        omega
    constructor
    · intro heq0
      rw [hlookup, hri, if_neg (by omega), if_pos heq0, ValueAt_of_lt n i hilen]
    · intro hgt0
      rw [hlookup, hri, if_neg (by omega), if_neg (by omega),
        show ((i : Int) - 1) = ((i - 1 : Nat) : Int) by omega,
        ValueAt_of_lt n (i - 1) (by omega)]
  · intro hall
    have hrlen : lowerBound n.array key intCmp 1 n.array.length =
        n.array.length := by
      rcases Nat.lt_or_ge (lowerBound n.array key intCmp 1 n.array.length)
        n.array.length with hlt | hge2
      · have ha := hb4 hlt
        have hb := hall _ hlt hb1
        omega
      · omega
    rw [hlookup, if_pos hrlen]

/-- Witness for C6: in the internal node with entries
`[(dummy, 100), (5, 101), (8, 102)]`, looking up key 5 (an exact match at the
first index whose key is ≥ 5, namely index 1) returns `ValueAt 1`. -/
theorem internal_lookup_binary_search_witness :
    BPlusTreeInternalPage.Lookup ⟨[(0, 100), (5, 101), (8, 102)], 4⟩ 5 intCmp =
      BPlusTreeInternalPage.ValueAt ⟨[(0, 100), (5, 101), (8, 102)], 4⟩ 1 :=
  ((internal_lookup_binary_search ⟨[(0, 100), (5, 101), (8, 102)], 4⟩ 5
      (by decide) (by decide)).1 1 (by decide) (by decide)
      (by decide) (by decide)).1 (by decide)

/-- Claim C7: on a leaf whose entries are sorted strictly ascending under the
comparator, `Insert` leaves the node unchanged and returns the old size when
the key is already present or when the page is full
(`size >= max_size`); otherwise it inserts `(key, value)` at the sorted
position found by `KeyIndex`, keeps all entries strictly ascending, and
returns the old size plus one. -/
theorem leaf_insert_sorted (l : BPlusTreeLeafPage) (key value : Int)
    (hsort : ∀ j, j < l.array.length → ∀ i, i < j →
       intCmp (keyD l.array i) (keyD l.array j) < 0) :
    ((∃ i, i < l.array.length ∧ intCmp (keyD l.array i) key = 0) →
       l.Insert key value intCmp = (l, (l.array.length : Int))) ∧
    (l.max_size_ ≤ (l.array.length : Int) →
       l.Insert key value intCmp = (l, (l.array.length : Int))) ∧
    ((∀ i, i < l.array.length → intCmp (keyD l.array i) key ≠ 0) →
     (l.array.length : Int) < l.max_size_ →
     l.Insert key value intCmp =
       ({ l with array := List.insertIdx (l.KeyIndex key intCmp) (key, value) l.array },
         (l.array.length : Int) + 1) ∧
     (List.insertIdx (l.KeyIndex key intCmp) (key, value) l.array).length =
       l.array.length + 1 ∧
     (key, value) ∈ List.insertIdx (l.KeyIndex key intCmp) (key, value) l.array ∧
     (∀ j, j < l.array.length + 1 → ∀ i, i < j →
        intCmp (keyD (List.insertIdx (l.KeyIndex key intCmp) (key, value) l.array) i)
          (keyD (List.insertIdx (l.KeyIndex key intCmp) (key, value) l.array) j) < 0)) := by
  have hsort' : ∀ j, j < l.array.length → ∀ i, i < j →
      keyD l.array i < keyD l.array j := by
    intro j hj i hij
    have := hsort j hj i hij
    rwa [intCmp_neg_iff] at this
  have hmono : ∀ i j, 0 ≤ i → i ≤ j → j < l.array.length →
      intCmp (keyD l.array j) key < 0 → intCmp (keyD l.array i) key < 0 := by
    intro i j h0 hij hj hcj
    rcases Nat.eq_or_lt_of_le hij with rfl | hlt
    · exact hcj
    · rw [intCmp_neg_iff] at hcj ⊢
      have := hsort' j hj i hlt
      omega
  obtain ⟨hb1, hb2, hb3, hb4⟩ :=
    lowerBound_spec l.array key intCmp 0 l.array.length (Nat.zero_le _) hmono
  have hkidx : l.KeyIndex key intCmp = lowerBound l.array key intCmp 0 l.array.length :=
    rfl
  rw [← hkidx] at hb1 hb2 hb3 hb4
  have hins : l.Insert key value intCmp =
      (if l.KeyIndex key intCmp < l.array.length ∧
          intCmp (keyD l.array (l.KeyIndex key intCmp)) key = 0 then
        (l, (l.array.length : Int))
      else if l.max_size_ ≤ (l.array.length : Int) then
        (l, (l.array.length : Int))
      else
        ({ l with array := List.insertIdx (l.KeyIndex key intCmp) (key, value) l.array },
          (l.array.length : Int) + 1)) := rfl
  refine ⟨?_, ?_, ?_⟩
  · rintro ⟨i, hilen, hieq⟩
    have hile : l.KeyIndex key intCmp ≤ i := by
      by_contra hcon
      push_neg at hcon
      have := hb3 i (Nat.zero_le _) hcon
      omega
    have hidxlen : l.KeyIndex key intCmp < l.array.length := by omega
    have hgeidx : 0 ≤ intCmp (keyD l.array (l.KeyIndex key intCmp)) key :=
      hb4 hidxlen
    have heqidx : intCmp (keyD l.array (l.KeyIndex key intCmp)) key = 0 := by
      rcases Nat.eq_or_lt_of_le hile with heq | hlt
      · rw [heq]; exact hieq
      · have hs := hsort' i hilen _ hlt
        rw [intCmp_eq_zero_iff] at hieq
        rw [intCmp_nonneg_iff] at hgeidx
        rw [intCmp_eq_zero_iff]
        omega
    rw [hins, if_pos ⟨hidxlen, heqidx⟩]
  · intro hfull
    rw [hins]
    by_cases hdup : l.KeyIndex key intCmp < l.array.length ∧
        intCmp (keyD l.array (l.KeyIndex key intCmp)) key = 0
    · rw [if_pos hdup]
    · rw [if_neg hdup, if_pos hfull]
  · intro hnp hspace
    have hidxle : l.KeyIndex key intCmp ≤ l.array.length := hb2
    have hndup : ¬(l.KeyIndex key intCmp < l.array.length ∧
        intCmp (keyD l.array (l.KeyIndex key intCmp)) key = 0) := by
      rintro ⟨hlt, heq⟩
      exact hnp _ hlt heq
    have hnfull : ¬(l.max_size_ ≤ (l.array.length : Int)) := by omega
    refine ⟨by rw [hins, if_neg hndup, if_neg hnfull], ?_, ?_, ?_⟩
    · exact List.length_insertIdx _ _ hidxle
    · exact (List.mem_insertIdx hidxle).mpr (Or.inl rfl)
    · have hF1 : ∀ k, k < l.KeyIndex key intCmp → keyD l.array k < key := by
        intro k hk
        have := hb3 k (Nat.zero_le _) hk
        rwa [intCmp_neg_iff] at this
      have hF2 : ∀ k, l.KeyIndex key intCmp ≤ k → k < l.array.length →
          key < keyD l.array k := by
        intro k hik hk
        have hidxlen : l.KeyIndex key intCmp < l.array.length := by omega
        have hge := hb4 hidxlen
        rw [intCmp_nonneg_iff] at hge
        have hne := hnp _ hidxlen
        rw [Ne, intCmp_eq_zero_iff] at hne
        have hklt : key < keyD l.array (l.KeyIndex key intCmp) := by omega
        rcases Nat.eq_or_lt_of_le hik with heq | hlt
        · rw [← heq]; exact hklt
        · have := hsort' k hk _ hlt
          omega
      have hget : ∀ m, m < l.array.length + 1 →
          keyD (List.insertIdx (l.KeyIndex key intCmp) (key, value) l.array) m =
            if m < l.KeyIndex key intCmp then keyD l.array m
            else if m = l.KeyIndex key intCmp then key
            else keyD l.array (m - 1) := by
        intro m hm
        have hlen' :
            (List.insertIdx (l.KeyIndex key intCmp) (key, value) l.array).length =
              l.array.length + 1 := List.length_insertIdx _ _ hidxle
        rcases Nat.lt_trichotomy m (l.KeyIndex key intCmp) with hlt | heq | hgt
        · rw [if_pos hlt, keyD, keyD,
            List.getD_eq_getElem _ _ (by omega :
              m < (List.insertIdx (l.KeyIndex key intCmp) (key, value) l.array).length),
            List.getD_eq_getElem _ _ (by omega : m < l.array.length),
            List.getElem_insertIdx_of_lt l.array (key, value) _ m hlt]
        · rw [if_neg (by omega), if_pos heq, heq, keyD,
            List.getD_eq_getElem _ _ (by omega :
              l.KeyIndex key intCmp <
                (List.insertIdx (l.KeyIndex key intCmp) (key, value) l.array).length),
            List.getElem_insertIdx_self l.array (key, value) _ hidxle]
        · rw [if_neg (by omega), if_neg (by omega)]
          obtain ⟨k, rfl⟩ : ∃ k, m = l.KeyIndex key intCmp + k + 1 :=
            ⟨m - l.KeyIndex key intCmp - 1, by omega⟩
          have hsub : l.KeyIndex key intCmp + k + 1 - 1 =
              l.KeyIndex key intCmp + k := rfl
          rw [hsub, keyD, keyD,
            List.getD_eq_getElem _ _ (by omega :
              l.KeyIndex key intCmp + k + 1 <
                (List.insertIdx (l.KeyIndex key intCmp) (key, value) l.array).length),
            List.getD_eq_getElem _ _ (by omega :
              l.KeyIndex key intCmp + k < l.array.length),
            List.getElem_insertIdx_add_succ l.array (key, value) _ k (by omega)]
      intro j hj i hij
      rw [intCmp_neg_iff, hget i (by omega), hget j hj]
      rcases Nat.lt_trichotomy i (l.KeyIndex key intCmp) with hi' | hi' | hi' <;>
        rcases Nat.lt_trichotomy j (l.KeyIndex key intCmp) with hj' | hj' | hj'
      · rw [if_pos hi', if_pos hj']
        exact hsort' j (by omega) i hij
      · rw [if_pos hi', if_neg (by omega), if_pos hj']
        exact hF1 i hi'
      · rw [if_pos hi', if_neg (by omega), if_neg (by omega)]
        exact hsort' (j - 1) (by omega) i (by omega)
      · exact absurd hij (by omega)
      · exact absurd hij (by omega)
      · rw [if_neg (by omega), if_pos hi', if_neg (by omega), if_neg (by omega)]
        exact hF2 (j - 1) (by omega) (by omega)
      · exact absurd hij (by omega)
      · exact absurd hij (by omega)
      · rw [if_neg (by omega), if_neg (by omega), if_neg (by omega), if_neg (by omega)]
        exact hsort' (j - 1) (by omega) (i - 1) (by omega)

/-- Witness for C7: inserting key 2 into the sorted leaf
`[(1, 10), (3, 30)]` with room (`max_size` 4) places it between the two
existing entries and returns size 3. -/
theorem leaf_insert_sorted_witness :
    BPlusTreeLeafPage.Insert ⟨[(1, 10), (3, 30)], 4⟩ 2 20 intCmp =
      ({ array := List.insertIdx
            (BPlusTreeLeafPage.KeyIndex ⟨[(1, 10), (3, 30)], 4⟩ 2 intCmp)
            (2, 20) [(1, 10), (3, 30)],
          max_size_ := 4 }, 3) :=
  ((leaf_insert_sorted ⟨[(1, 10), (3, 30)], 4⟩ 2 20 (by decide)).2.2
    (by decide) (by decide)).1

/-- Claim C9 (counterexample): on a one-entry leaf, index 5 lies outside
`[0, size)`, yet `KeyAt 5` does not fail with an out-of-range signal — it
returns the default-constructed key 0 — and `GetItem 5` returns the first
entry `(10, 20)`.  This refutes the claim that every node-level accessor,
leaf accessors included, fails on an invalid index without returning a
value. -/
theorem leaf_accessor_out_of_range_returns_value :
    ((BPlusTreeLeafPage.mk [(10, 20)] 4).array.length : Int) ≤ 5 ∧
    BPlusTreeLeafPage.KeyAt ⟨[(10, 20)], 4⟩ 5 = 0 ∧
    BPlusTreeLeafPage.GetItem ⟨[(10, 20)], 4⟩ 5 = (10, 20) := by
  decide

/-- Claim C9 (amended): internal-node accessors (`KeyAt`, `ValueAt`,
`SetKeyAt`, `Remove`) called with an index outside `[0, size)` fail with the
out-of-range exception and do not modify or return anything; the leaf
accessors do not fail: leaf `KeyAt` returns the default-constructed key and
leaf `GetItem` returns the first entry (or a default dummy item on an empty
page), in both cases leaving the node unmodified. -/
theorem node_accessors_out_of_range (n : BPlusTreeInternalPage)
    (l : BPlusTreeLeafPage) (index k : Int)
    (hn : index < 0 ∨ (n.array.length : Int) ≤ index)
    (hl : index < 0 ∨ (l.array.length : Int) ≤ index) :
    n.KeyAt index = none ∧ n.ValueAt index = none ∧
    n.SetKeyAt index k = none ∧ n.Remove index = none ∧
    l.KeyAt index = 0 ∧
    l.GetItem index =
      (if 0 < l.array.length then l.array.getD 0 (0, 0) else (0, 0)) := by
  refine ⟨?_, ?_, ?_, ?_, ?_, ?_⟩
  · unfold BPlusTreeInternalPage.KeyAt
    rw [if_pos hn]
  · unfold BPlusTreeInternalPage.ValueAt
    rw [if_pos hn]
  · unfold BPlusTreeInternalPage.SetKeyAt
    rw [if_pos hn]
  · unfold BPlusTreeInternalPage.Remove
    rw [if_pos hn]
  · unfold BPlusTreeLeafPage.KeyAt
    rw [if_pos hl]
  · unfold BPlusTreeLeafPage.GetItem
    rw [if_pos hl]

/-- Witness for C9 (amended) at a one-entry internal node, a one-entry leaf,
and index 5. -/
theorem node_accessors_out_of_range_witness :
    BPlusTreeInternalPage.KeyAt ⟨[(0, 1)], 4⟩ 5 = none ∧
    BPlusTreeInternalPage.ValueAt ⟨[(0, 1)], 4⟩ 5 = none ∧
    BPlusTreeInternalPage.SetKeyAt ⟨[(0, 1)], 4⟩ 5 99 = none ∧
    BPlusTreeInternalPage.Remove ⟨[(0, 1)], 4⟩ 5 = none ∧
    BPlusTreeLeafPage.KeyAt ⟨[(10, 20)], 4⟩ 5 = 0 ∧
    BPlusTreeLeafPage.GetItem ⟨[(10, 20)], 4⟩ 5 =
      (if 0 < (BPlusTreeLeafPage.mk [(10, 20)] 4).array.length then
        (BPlusTreeLeafPage.mk [(10, 20)] 4).array.getD 0 (0, 0)
      else (0, 0)) :=
  node_accessors_out_of_range ⟨[(0, 1)], 4⟩ ⟨[(10, 20)], 4⟩ 5 99
    (by decide) (by decide)

/-- Claim C10: moving an entry from a non-empty source leaf into a recipient
already at `size >= max_size` drops the entry: `CopyLastFrom` and
`CopyFirstFrom` leave the full recipient entirely unchanged, so
`MoveFirstToEndOf` and `MoveLastToFrontOf` shrink the source by one entry
while adding nothing to the recipient. -/
theorem leaf_move_into_full_recipient (src recipient : BPlusTreeLeafPage)
    (item : Int × Int) (hsrc : src.array ≠ [])
    (hfull : recipient.max_size_ ≤ (recipient.array.length : Int)) :
    recipient.CopyLastFrom item = recipient ∧
    recipient.CopyFirstFrom item = recipient ∧
    BPlusTreeLeafPage.MoveFirstToEndOf src recipient =
      ({ src with array := src.array.tail }, recipient) ∧
    src.array.tail.length + 1 = src.array.length ∧
    BPlusTreeLeafPage.MoveLastToFrontOf src recipient =
      ({ src with array := src.array.dropLast }, recipient) ∧
    src.array.dropLast.length + 1 = src.array.length := by
  have hne : ¬ src.array.length = 0 := by
    intro h
    exact hsrc (List.length_eq_zero.mp h)
  have hcl : ∀ it, recipient.CopyLastFrom it = recipient := by
    intro it
    unfold BPlusTreeLeafPage.CopyLastFrom
    rw [if_pos hfull]
  have hcf : ∀ it, recipient.CopyFirstFrom it = recipient := by
    intro it
    unfold BPlusTreeLeafPage.CopyFirstFrom
    rw [if_pos hfull]
  refine ⟨hcl item, hcf item, ?_, ?_, ?_, ?_⟩
  · unfold BPlusTreeLeafPage.MoveFirstToEndOf
    rw [if_neg hne, hcl]
  · rw [List.length_tail]
    omega
  · unfold BPlusTreeLeafPage.MoveLastToFrontOf
    rw [if_neg hne, hcf]
  · rw [List.length_dropLast]
    omega

/-- Witness for C10: source `[(1, 10), (2, 20)]`, recipient
`[(5, 50), (6, 60)]` already at its `max_size` 2. -/
theorem leaf_move_into_full_recipient_witness :
    BPlusTreeLeafPage.CopyLastFrom ⟨[(5, 50), (6, 60)], 2⟩ (9, 90) =
      ⟨[(5, 50), (6, 60)], 2⟩ ∧
    BPlusTreeLeafPage.CopyFirstFrom ⟨[(5, 50), (6, 60)], 2⟩ (9, 90) =
      ⟨[(5, 50), (6, 60)], 2⟩ ∧
    BPlusTreeLeafPage.MoveFirstToEndOf ⟨[(1, 10), (2, 20)], 4⟩
        ⟨[(5, 50), (6, 60)], 2⟩ =
      (⟨[(2, 20)], 4⟩, ⟨[(5, 50), (6, 60)], 2⟩) ∧
    (1 : Nat) + 1 = 2 ∧
    BPlusTreeLeafPage.MoveLastToFrontOf ⟨[(1, 10), (2, 20)], 4⟩
        ⟨[(5, 50), (6, 60)], 2⟩ =
      (⟨[(1, 10)], 4⟩, ⟨[(5, 50), (6, 60)], 2⟩) ∧
    (1 : Nat) + 1 = 2 :=
  leaf_move_into_full_recipient ⟨[(1, 10), (2, 20)], 4⟩
    ⟨[(5, 50), (6, 60)], 2⟩ (9, 90) (by decide) (by decide)
